import Mathlib

/-!
Verification of the session engine of the erlpy_websocket Python client
(src_py/websocket_client.py, class BerlWebSocketClient).

The development shallowly embeds the client and the parts of the Python
runtime it relies on:

* `JVal` models the values exchangeable as JSON payloads: Python `None`,
  `bool`, `int`, `str`, `list` and `dict` (an insertion-ordered association
  list; Python dicts never hold a duplicate key, captured by `jwf`).
  Floats are outside the model: the parser reports a structured value only
  for integer numerals and returns `none` where CPython would build a float.
* `dumps` models `json.dumps` with its default options: `ensure_ascii=True`
  (every character outside 0x20..0x7e is emitted as a `\uXXXX` escape, astral
  characters as a surrogate pair) and the default separators, a comma plus a
  space between items and a colon plus a space after a key.
* `loads` models `json.loads`: a recursive-descent scan that skips JSON
  whitespace between tokens, decodes the escape forms of the string grammar
  (recombining surrogate pairs), enforces the no-leading-zero integer rule,
  builds each object by repeated dict assignment (`objInsert`, so a duplicate
  key keeps its first position and the last value) and rejects trailing
  input after the top-level value.
* The client itself (state record, `send_message`, `disconnect`,
  `handle_message`, `listen_for_messages`) is embedded with explicit effect
  results: each operation returns the updated client state, the list of
  frames written to the transport, the log records produced, and the control
  outcome (a normal `None` return or a raised exception). The transport is
  the environment: a `WriteOutcome` decides each write, a `RecvEvent` list
  scripts the receive loop.
-/

/-- A Python value that can travel through the JSON codec: `None`, `bool`,
`int`, `str`, `list`, `dict` (insertion-ordered association list). -/
inductive JVal where
  | null
  | bool (b : Bool)
  | int (n : Int)
  | str (s : String)
  | arr (xs : List JVal)
  | obj (kvs : List (String × JVal))
deriving Repr

/-- Python `dict.get(k)`: the first binding of `k`, or `None` when absent.
(A well-formed dict never holds `k` twice, so first-binding is the binding.) -/
def objGet (kvs : List (String × JVal)) (k : String) : JVal :=
  match kvs with
  | [] => .null
  | (k0, v) :: rest => if k0 = k then v else objGet rest k

/-! ## The serializer: `json.dumps` with default options -/

/-- Lowercase hexadecimal digit character for `n < 16`. -/
def hexChar (n : Nat) : Char :=
  if n < 10 then Char.ofNat (48 + n) else Char.ofNat (87 + n)

/-- Four lowercase hex digits of `n < 0x10000`, most significant first. -/
def hex4 (n : Nat) : List Char :=
  [hexChar (n / 4096 % 16), hexChar (n / 256 % 16), hexChar (n / 16 % 16), hexChar (n % 16)]

/-- Decimal digits of `n`, most significant first, in front of `acc`.
The first argument is recursion fuel; any fuel above the digit count of `n`
(so in particular `n + 1`) yields the digits. -/
def natToCharsAux : Nat → Nat → List Char → List Char
  | 0, _, acc => acc
  | fuel + 1, n, acc =>
    if n < 10 then Char.ofNat (48 + n) :: acc
    else natToCharsAux fuel (n / 10) (Char.ofNat (48 + n % 10) :: acc)

/-- Decimal digit characters of `n`, most significant first. -/
def natToChars (n : Nat) : List Char := natToCharsAux (n + 1) n []

/-- Characters of Python `str(i)` for an `int`: optional minus, then digits. -/
def intToChars (i : Int) : List Char :=
  if i < 0 then '-' :: natToChars i.natAbs else natToChars i.natAbs

/-- One character as `json.dumps` (with `ensure_ascii=True`) emits it: the
two-character escapes of `ESCAPE_DCT`, `\u00xx` for the remaining control
characters, the character itself in 0x20..0x7e, `\uxxxx` for the rest of the
basic plane, and a surrogate pair for astral characters. -/
def escChar (c : Char) : List Char :=
  if c = '\\' then ['\\', '\\']
  else if c = '"' then ['\\', '"']
  else if c = '\x08' then ['\\', 'b']
  else if c = '\x0c' then ['\\', 'f']
  else if c = '\n' then ['\\', 'n']
  else if c = '\r' then ['\\', 'r']
  else if c = '\t' then ['\\', 't']
  else if 32 ≤ c.toNat ∧ c.toNat ≤ 126 then [c]
  else if c.toNat < 65536 then '\\' :: 'u' :: hex4 c.toNat
  else
    ('\\' :: 'u' :: hex4 (55296 + (c.toNat - 65536) / 1024)) ++
      ('\\' :: 'u' :: hex4 (56320 + (c.toNat - 65536) % 1024))

/-- The escaped body of a string (the part between the two quotes). -/
def escBody : List Char → List Char
  | [] => []
  | c :: cs => escChar c ++ escBody cs

mutual

/-- Characters of `json.dumps v` (default separators: item separator comma
plus space, key separator colon plus space; `sort_keys=False`). -/
def printVal : JVal → List Char
  | .null => "null".data
  | .bool true => "true".data
  | .bool false => "false".data
  | .int i => intToChars i
  | .str s => '"' :: (escBody s.data ++ ['"'])
  | .arr xs => '[' :: (printArrItems xs ++ [']'])
  | .obj kvs => '\x7b' :: (printObjItems kvs ++ ['\x7d'])

/-- Array items joined by a comma and a space. -/
def printArrItems : List JVal → List Char
  | [] => []
  | [v] => printVal v
  | v :: vs => printVal v ++ ',' :: ' ' :: printArrItems vs

/-- Object members, each a quoted key, a colon, a space and the value,
joined by a comma and a space. -/
def printObjItems : List (String × JVal) → List Char
  | [] => []
  | [(k, v)] => '"' :: (escBody k.data ++ '"' :: ':' :: ' ' :: printVal v)
  | (k, v) :: kvs =>
    '"' :: (escBody k.data ++ '"' :: ':' :: ' ' :: printVal v) ++
      ',' :: ' ' :: printObjItems kvs

end

/-- Model of `json.dumps` (default options). -/
def dumps (v : JVal) : String := ⟨printVal v⟩

/-! ## The parser: `json.loads` -/

/-- JSON whitespace (the characters the decoder skips between tokens). -/
def isWsChar (c : Char) : Bool := c = ' ' || c = '\t' || c = '\n' || c = '\r'

/-- Drop leading JSON whitespace. -/
def skipWs : List Char → List Char
  | [] => []
  | c :: cs => if isWsChar c then skipWs cs else c :: cs

/-- Decimal digit test. -/
def isDig (c : Char) : Bool := 48 ≤ c.toNat && c.toNat ≤ 57

/-- Split off the maximal leading run of decimal digits. -/
def takeDigits : List Char → List Char × List Char
  | [] => ([], [])
  | c :: cs =>
    if isDig c then
      let p := takeDigits cs
      (c :: p.1, p.2)
    else ([], c :: cs)

/-- Fold decimal digit characters onto an accumulated value. -/
def digitsToNat (acc : Nat) : List Char → Nat
  | [] => acc
  | c :: cs => digitsToNat (acc * 10 + (c.toNat - 48)) cs

/-- Value of one hexadecimal digit character, either case. -/
def hexVal (c : Char) : Option Nat :=
  if 48 ≤ c.toNat ∧ c.toNat ≤ 57 then some (c.toNat - 48)
  else if 97 ≤ c.toNat ∧ c.toNat ≤ 102 then some (c.toNat - 87)
  else if 65 ≤ c.toNat ∧ c.toNat ≤ 70 then some (c.toNat - 55)
  else none

/-- The single-character escapes of the JSON string grammar. -/
def escDecode (c : Char) : Option Char :=
  if c = '"' then some '"'
  else if c = '\\' then some '\\'
  else if c = '/' then some '/'
  else if c = 'b' then some '\x08'
  else if c = 'f' then some '\x0c'
  else if c = 'n' then some '\n'
  else if c = 'r' then some '\r'
  else if c = 't' then some '\t'
  else none

/-- Scan a JSON string body after the opening quote, up to the closing quote:
plain characters (strict mode: a raw control character is an error), the
named escapes, and `\uXXXX` with surrogate-pair recombination. CPython keeps
a lone surrogate in the resulting `str`; such a string has no counterpart in
the model (model strings hold scalar values only), so the scan reports
failure there instead. -/
def parseStrChars : Nat → List Char → Option (List Char × List Char)
  | 0, _ => none
  | _ + 1, [] => none
  | fuel + 1, c :: cs =>
    if c = '"' then some ([], cs)
    else if c = '\\' then
      match cs with
      | 'u' :: h1 :: h2 :: h3 :: h4 :: cs3 =>
        match hexVal h1, hexVal h2, hexVal h3, hexVal h4 with
        | some a, some b, some d, some e =>
          let n := ((a * 16 + b) * 16 + d) * 16 + e
          if 55296 ≤ n ∧ n ≤ 56319 then
            match cs3 with
            | '\\' :: 'u' :: g1 :: g2 :: g3 :: g4 :: cs4 =>
              match hexVal g1, hexVal g2, hexVal g3, hexVal g4 with
              | some a2, some b2, some d2, some e2 =>
                let m := ((a2 * 16 + b2) * 16 + d2) * 16 + e2
                if 56320 ≤ m ∧ m ≤ 57343 then
                  match parseStrChars fuel cs4 with
                  | some p => some (Char.ofNat (65536 + (n - 55296) * 1024 + (m - 56320)) :: p.1, p.2)
                  | none => none
                else none
              | _, _, _, _ => none
            | _ => none
          else if 56320 ≤ n ∧ n ≤ 57343 then none
          else
            match parseStrChars fuel cs3 with
            | some p => some (Char.ofNat n :: p.1, p.2)
            | none => none
        | _, _, _, _ => none
      | e :: cs2 =>
        match escDecode e with
        | some ch =>
          match parseStrChars fuel cs2 with
          | some p => some (ch :: p.1, p.2)
          | none => none
        | none => none
      | [] => none
    else if c.toNat < 32 then none
    else
      match parseStrChars fuel cs with
      | some p => some (c :: p.1, p.2)
      | none => none

/-- Scan the integer part of a JSON numeral: a single `0`, or a nonzero
digit followed by any digit run (no leading zeros). -/
def parseIntPart : List Char → Option (Nat × List Char)
  | [] => none
  | c :: cs =>
    if c = '0' then some (0, cs)
    else if isDig c then
      let p := takeDigits cs
      some (digitsToNat (c.toNat - 48) p.1, p.2)
    else none

/-- A continuation character that would extend the numeral into a float
(fraction or exponent). CPython builds a `float` there; floats are outside
this model, so the scan reports failure on such input. -/
def floatStart : List Char → Bool
  | [] => false
  | c :: _ => c = '.' || c = 'e' || c = 'E'

/-- Python dict assignment `d[k] = v`: replace the value in place if the key
is present, append the binding otherwise. -/
def objInsert (acc : List (String × JVal)) (k : String) (v : JVal) :
    List (String × JVal) :=
  match acc with
  | [] => [(k, v)]
  | (k0, v0) :: rest => if k0 = k then (k0, v) :: rest else (k0, v0) :: objInsert rest k v

/-- Build a dict from scanned members the way `dict(pairs)` does: assignment
in order, so a duplicate key keeps its first position and its last value. -/
def dictOfPairs (prs : List (String × JVal)) : List (String × JVal) :=
  prs.foldl (fun acc p => objInsert acc p.1 p.2) []

mutual

/-- Scan one JSON value at the head of the input (no leading whitespace):
object, array, string, the three literals, or an integer numeral. `NaN`,
`Infinity` and every other rejected form yield `none`, as does any numeral
CPython would turn into a float. Fuel-driven; fuel above the input length
never runs out. -/
def parseVal : Nat → List Char → Option (JVal × List Char)
  | 0, _ => none
  | _ + 1, [] => none
  | fuel + 1, c :: cs1 =>
    if c = '\x7b' then
      match skipWs cs1 with
      | [] => none
      | c2 :: r =>
        if c2 = '\x7d' then some (.obj [], r)
        else
          match parseMembers fuel (c2 :: r) with
          | some (prs, r2) => some (.obj (dictOfPairs prs), r2)
          | none => none
    else if c = '[' then
      match skipWs cs1 with
      | [] => none
      | c2 :: r =>
        if c2 = ']' then some (.arr [], r)
        else
          match parseItems fuel (c2 :: r) with
          | some (xs, r2) => some (.arr xs, r2)
          | none => none
    else if c = '"' then
      match parseStrChars fuel cs1 with
      | some (chs, r) => some (.str ⟨chs⟩, r)
      | none => none
    else if c = 't' then
      match cs1 with
      | 'r' :: 'u' :: 'e' :: r => some (.bool true, r)
      | _ => none
    else if c = 'f' then
      match cs1 with
      | 'a' :: 'l' :: 's' :: 'e' :: r => some (.bool false, r)
      | _ => none
    else if c = 'n' then
      match cs1 with
      | 'u' :: 'l' :: 'l' :: r => some (.null, r)
      | _ => none
    else if c = '-' then
      match parseIntPart cs1 with
      | some (n, r) => if floatStart r then none else some (.int (-(n : Int)), r)
      | none => none
    else if isDig c then
      match parseIntPart (c :: cs1) with
      | some (n, r) => if floatStart r then none else some (.int (n : Int), r)
      | none => none
    else none

/-- Scan one or more comma-separated array items (the empty array is handled
by `parseVal`); expects its input already whitespace-skipped. -/
def parseItems : Nat → List Char → Option (List JVal × List Char)
  | 0, _ => none
  | fuel + 1, cs =>
    match parseVal fuel cs with
    | some (v, r) =>
      match skipWs r with
      | ',' :: r2 =>
        match parseItems fuel (skipWs r2) with
        | some (vs, r3) => some (v :: vs, r3)
        | none => none
      | ']' :: r2 => some ([v], r2)
      | _ => none
    | none => none

/-- Scan one or more comma-separated object members (the empty object is
handled by `parseVal`); expects its input already whitespace-skipped. -/
def parseMembers : Nat → List Char → Option (List (String × JVal) × List Char)
  | 0, _ => none
  | fuel + 1, cs =>
    match cs with
    | '"' :: cs1 =>
      match parseStrChars fuel cs1 with
      | some (kcs, r) =>
        match skipWs r with
        | ':' :: r2 =>
          match parseVal fuel (skipWs r2) with
          | some (v, r3) =>
            match skipWs r3 with
            | ',' :: r4 =>
              match parseMembers fuel (skipWs r4) with
              | some (prs, r5) => some ((⟨kcs⟩, v) :: prs, r5)
              | none => none
            | '\x7d' :: r4 => some ([(⟨kcs⟩, v)], r4)
            | _ => none
          | none => none
        | _ => none
      | none => none
    | _ => none

end

/-- Model of `json.loads`: skip leading whitespace, scan one value, skip
trailing whitespace, and reject any remaining input (the Extra data error). -/
def loads (s : String) : Option JVal :=
  match parseVal (s.data.length + 1) (skipWs s.data) with
  | some (v, r) => if skipWs r = [] then some v else none
  | none => none

mutual

/-- A model value expressible as a Python object graph: every dict it
contains binds each key at most once (Python dicts cannot do otherwise). -/
def jwf : JVal → Bool
  | .null => true
  | .bool _ => true
  | .int _ => true
  | .str _ => true
  | .arr xs => jwfArr xs
  | .obj kvs => jwfObj kvs

/-- Well-formedness of every element of a list value. -/
def jwfArr : List JVal → Bool
  | [] => true
  | v :: vs => jwf v && jwfArr vs

/-- Well-formedness of an association list as a dict: the head key is absent
from the tail, recursively. -/
def jwfObj : List (String × JVal) → Bool
  | [] => true
  | (k, v) :: kvs => kvs.all (fun p => !(p.1 = k : Bool)) && jwf v && jwfObj kvs

end

/-! ## Python string conversion (`str`/`repr`) for log interpolation -/

/-- Quote character Python `repr` picks for a string: a single quote, unless
the string contains one and no double quote. -/
def reprQuote (cs : List Char) : Char :=
  if cs.contains '\x27' && !(cs.contains '"') then '"' else '\x27'

/-- One character of a `repr`-quoted string body: backslash and the active
quote are escaped, `\n`, `\r`, `\t` use their short forms, remaining ASCII
control characters (and DEL) use `\xhh`. Non-ASCII printability is
approximated: characters at 0x80 and above are kept as they are. -/
def reprStrBody (q : Char) : List Char → List Char
  | [] => []
  | c :: cs =>
    (if c = '\\' then ['\\', '\\']
     else if c = q then ['\\', q]
     else if c = '\n' then ['\\', 'n']
     else if c = '\r' then ['\\', 'r']
     else if c = '\t' then ['\\', 't']
     else if c.toNat < 32 ∨ c.toNat = 127 then ['\\', 'x', hexChar (c.toNat / 16), hexChar (c.toNat % 16)]
     else [c]) ++ reprStrBody q cs

/-- Python `repr` of a string: the chosen quote around the escaped body. -/
def reprOfString (s : String) : String :=
  ⟨reprQuote s.data :: (reprStrBody (reprQuote s.data) s.data ++ [reprQuote s.data])⟩

mutual

/-- Python `repr` of a model value (as used for elements inside the `str`
form of a container). -/
def pyRepr : JVal → String
  | .null => "None"
  | .bool true => "True"
  | .bool false => "False"
  | .int i => ⟨intToChars i⟩
  | .str s => reprOfString s
  | .arr xs => "[" ++ pyReprItems xs ++ "]"
  | .obj kvs => "\x7b" ++ pyReprMembers kvs ++ "\x7d"

/-- Comma-and-space separated `repr` forms of list elements. -/
def pyReprItems : List JVal → String
  | [] => ""
  | [v] => pyRepr v
  | v :: vs => pyRepr v ++ ", " ++ pyReprItems vs

/-- Comma-and-space separated `repr` forms of dict members. -/
def pyReprMembers : List (String × JVal) → String
  | [] => ""
  | [(k, v)] => reprOfString k ++ ": " ++ pyRepr v
  | (k, v) :: kvs => reprOfString k ++ ": " ++ pyRepr v ++ ", " ++ pyReprMembers kvs

end

/-- Python `str()` of a model value: a string is returned as it is, anything
else falls back to its `repr` form (this is what an f-string interpolates). -/
def pyStr : JVal → String
  | .str s => s
  | .null => pyRepr .null
  | .bool b => pyRepr (.bool b)
  | .int i => pyRepr (.int i)
  | .arr xs => pyRepr (.arr xs)
  | .obj kvs => pyRepr (.obj kvs)

/-! ## The session engine: class BerlWebSocketClient -/

/-- Severity of a log record (the client only uses `logger.info` and
`logger.error`). -/
inductive LogLevel where
  | info
  | error
deriving Repr, DecidableEq

/-- One record passed to the process logger. -/
structure LogRec where
  level : LogLevel
  msg : String
deriving Repr, DecidableEq

/-- Environment decision for one transport write: the `websocket.send`
coroutine either completes or raises an exception rendered as `e`. -/
inductive WriteOutcome where
  | ok
  | exn (e : String)

/-- The transport write as the client awaits it: a possibly-raising action. -/
def wsSend : WriteOutcome → Except String Unit
  | .ok => .ok ()
  | .exn e => .error e

/-- The transport handle owned by the client; `closed` records whether
`close()` has been awaited on it. -/
structure WSHandle where
  closed : Bool
deriving Repr, DecidableEq

/-- State of a `BerlWebSocketClient` instance: the fields assigned in
`__init__` (`host`, `port`, `websocket = None`, `running = False`). -/
structure BerlWebSocketClient where
  host : String
  port : Nat
  websocket : Option WSHandle
  running : Bool
deriving Repr, DecidableEq

/-- Python `==` between a decoded value and a string literal: true exactly
for the equal string (no other value compares equal to a `str`). -/
def pyEqStr (v : JVal) (s : String) : Bool :=
  match v with
  | .str t => t = s
  | _ => false

/-- The text `send_message` puts on the wire: `json.dumps` for a dict,
`str(message)` for anything else. -/
def pyToText (message : JVal) : String :=
  match message with
  | .obj _ => dumps message
  | _ => pyStr message

/-- Model of `send_message` (lines 47-62): when `self.websocket` is falsy,
log an error and return; otherwise serialize and await the write inside
`try`, logging success, and catching any exception into an error log. The
result is the client state, the frames written, the logs, and the control
outcome (always a normal `None` return). -/
def send_message (c : BerlWebSocketClient) (message : JVal) (wo : WriteOutcome) :
    BerlWebSocketClient × List String × List LogRec × Except String Unit :=
  if c.websocket.isNone then
    (c, [], [⟨.error, "Not connected to server"⟩], .ok ())
  else
    let message_str := pyToText message
    match wsSend wo with
    | .ok _ => (c, [message_str], [⟨.info, "📤 Sent: " ++ pyStr message⟩], .ok ())
    | .error e => (c, [], [⟨.error, "❌ Failed to send message: " ++ e⟩], .ok ())

/-- Model of `disconnect` (lines 40-45): when `self.websocket` is truthy,
clear `running`, await `close()` on the handle and log; the handle reference
itself is kept. When there is no handle, nothing happens. -/
def disconnect (c : BerlWebSocketClient) :
    BerlWebSocketClient × List LogRec :=
  match c.websocket with
  | some ws =>
    ({ c with running := false, websocket := some { ws with closed := true } },
      [⟨.info, "Disconnected from WebSocket server"⟩])
  | none => (c, [])

/-- Model of `handle_message` (lines 84-100): log the processing record,
then, for a dict, reply to `type == 'ping'` with a pong echoing the
`timestamp` field (`None` when absent), else to `command == 'echo'` with an
echo_response built from the `data` field; any other message (dict or not)
gets no reaction. Replies go through `send_message`; its control outcome is
propagated. -/
def handle_message (c : BerlWebSocketClient) (message : JVal) (wo : WriteOutcome) :
    BerlWebSocketClient × List String × List LogRec × Except String Unit :=
  let l0 : LogRec := ⟨.info, "Processing message: " ++ pyStr message⟩
  match message with
  | .obj kvs =>
    if pyEqStr (objGet kvs "type") "ping" then
      let r := send_message c
        (.obj [("type", .str "pong"), ("timestamp", objGet kvs "timestamp")]) wo
      (r.1, r.2.1, l0 :: r.2.2.1, r.2.2.2)
    else if pyEqStr (objGet kvs "command") "echo" then
      let r := send_message c
        (.obj [("type", .str "echo_response"),
               ("original", objGet kvs "data"),
               ("response", .str ("Echo: " ++ pyStr (objGet kvs "data")))]) wo
      (r.1, r.2.1, l0 :: r.2.2.1, r.2.2.2)
    else (c, [], [l0], .ok ())
  | _ => (c, [], [l0], .ok ())

/-- Environment script for one `websocket.recv()` await: a text frame, a
connection closed by the peer (`ConnectionClosed`), or any other raised
exception rendered as `e`. -/
inductive RecvEvent where
  | msg (s : String)
  | closed
  | exn (e : String)

/-- Model of `listen_for_messages` (lines 64-82): while `self.running` and
`self.websocket` are truthy, await one frame, log it, try `json.loads` and
dispatch the parsed value — or, on `JSONDecodeError`, the raw text — to
`handle_message`, then iterate. A `ConnectionClosed` from the read ends the
loop with the peer-close log; any other exception escaping the body ends it
with the listening-error log. An exhausted event script is the loop still
blocked in `recv()`: the state so far is returned unchanged. -/
def listen_for_messages (c : BerlWebSocketClient) (evs : List RecvEvent)
    (wos : List WriteOutcome) :
    BerlWebSocketClient × List String × List LogRec :=
  if c.running && c.websocket.isSome then
    match evs with
    | [] => (c, [], [])
    | .closed :: _ => (c, [], [⟨.info, "Connection closed by server"⟩])
    | .exn e :: _ => (c, [], [⟨.error, "❌ Error listening for messages: " ++ e⟩])
    | .msg s :: rest =>
      let lr : LogRec := ⟨.info, "📥 Received: " ++ s⟩
      let h :=
        match loads s with
        | some v => handle_message c v (wos.headD .ok)
        | none => handle_message c (.str s) (wos.headD .ok)
      match h.2.2.2 with
      | .ok _ =>
        let t := listen_for_messages h.1 rest wos.tail
        (t.1, h.2.1 ++ t.2.1, lr :: (h.2.2.1 ++ t.2.2))
      | .error e =>
        (h.1, h.2.1, lr :: (h.2.2.1 ++ [⟨.error, "❌ Error listening for messages: " ++ e⟩]))
  else (c, [], [])

/-- A remainder that can follow a numeral without extending it: empty, or
headed by a character that is no digit and would not start a fraction or
exponent. Every delimiter the serializer emits after a number (comma,
closing bracket, closing brace, end of input) qualifies. -/
def intStop : List Char → Bool
  | [] => true
  | c :: _ => !(isDig c || c = '.' || c = 'e' || c = 'E')

/-- Pairwise key distinctness of an association list (what Python dicts
guarantee for the pairs handed to `json.dumps`). -/
def keysDistinct : List (String × JVal) → Prop
  | [] => True
  | (k, _) :: kvs => (∀ p ∈ kvs, p.1 ≠ k) ∧ keysDistinct kvs

/-! ## Arithmetic of digit and hex characters -/

theorem char_ne_of_toNat_ne {c d : Char} (h : c.toNat ≠ d.toNat) : c ≠ d :=
  fun e => h (congrArg Char.toNat e)

theorem char_valid_nat (c : Char) :
    c.toNat < 55296 ∨ (57344 ≤ c.toNat ∧ c.toNat < 1114112) := c.valid

theorem digitChar_toNat : ∀ d : Nat, d < 10 → (Char.ofNat (48 + d)).toNat = 48 + d := by
  decide

theorem digitChar_isDig : ∀ d : Nat, d < 10 → isDig (Char.ofNat (48 + d)) = true := by
  decide

theorem hexVal_hexChar : ∀ d : Nat, d < 16 → hexVal (hexChar d) = some d := by
  decide

theorem isDig_iff {c : Char} : isDig c = true ↔ 48 ≤ c.toNat ∧ c.toNat ≤ 57 := by
  simp [isDig]

theorem isWsChar_eq_false {c : Char} (h1 : c ≠ ' ') (h2 : c ≠ '\t') (h3 : c ≠ '\n')
    (h4 : c ≠ '\r') : isWsChar c = false := by
  simp [isWsChar, h1, h2, h3, h4]

theorem isDig_facts {c : Char} (h : isDig c = true) :
    c ≠ ' ' ∧ c ≠ '\t' ∧ c ≠ '\n' ∧ c ≠ '\r' ∧ c ≠ '\x7b' ∧ c ≠ '[' ∧ c ≠ '"' ∧
    c ≠ 't' ∧ c ≠ 'f' ∧ c ≠ 'n' ∧ c ≠ '-' ∧ c ≠ ']' ∧ c ≠ '\x7d' ∧ c ≠ ',' ∧
    c ≠ '.' ∧ c ≠ 'e' ∧ c ≠ 'E' ∧ c ≠ ':' := by
  refine ⟨?_, ?_, ?_, ?_, ?_, ?_, ?_, ?_, ?_, ?_, ?_, ?_, ?_, ?_, ?_, ?_, ?_, ?_⟩ <;>
    (intro hc; subst hc; exact absurd h (by decide))

theorem isDig_not_ws {c : Char} (h : isDig c = true) : isWsChar c = false :=
  isWsChar_eq_false (isDig_facts h).1 (isDig_facts h).2.1 (isDig_facts h).2.2.1
    (isDig_facts h).2.2.2.1

/-! ## Decimal digits round-trip -/

theorem natToCharsAux_acc (n : Nat) : ∀ fuel acc, n < fuel →
    natToCharsAux fuel n acc = natToChars n ++ acc := by
  induction n using Nat.strongRecOn with
  | _ n ih =>
    intro fuel acc hf
    match fuel with
    | f + 1 =>
      by_cases h10 : n < 10
      · simp [natToCharsAux, natToChars, h10]
      · have hdiv : n / 10 < n := Nat.div_lt_self (by omega) (by omega)
        have hstep : natToCharsAux (f + 1) n acc
            = natToCharsAux f (n / 10) (Char.ofNat (48 + n % 10) :: acc) := by
          simp [natToCharsAux, h10]
        have hstep2 : natToChars n
            = natToCharsAux n (n / 10) [Char.ofNat (48 + n % 10)] := by
          simp [natToChars, natToCharsAux, h10]
        rw [hstep, ih (n / 10) hdiv f _ (by omega), hstep2, ih (n / 10) hdiv n _ (by omega)]
        simp

theorem natToChars_lt10 {n : Nat} (h : n < 10) : natToChars n = [Char.ofNat (48 + n)] := by
  simp [natToChars, natToCharsAux, h]

theorem natToChars_ge10 {n : Nat} (h : ¬ n < 10) :
    natToChars n = natToChars (n / 10) ++ [Char.ofNat (48 + n % 10)] := by
  have hdiv : n / 10 < n := Nat.div_lt_self (by omega) (by omega)
  have hstep : natToChars n = natToCharsAux n (n / 10) [Char.ofNat (48 + n % 10)] := by
    simp [natToChars, natToCharsAux, h]
  rw [hstep, natToCharsAux_acc (n / 10) n _ (by omega)]

theorem natToChars_ne_nil (n : Nat) : natToChars n ≠ [] := by
  by_cases h : n < 10
  · simp [natToChars_lt10 h]
  · simp [natToChars_ge10 h]

theorem natToChars_digits (n : Nat) : ∀ c ∈ natToChars n, isDig c = true := by
  induction n using Nat.strongRecOn with
  | _ n ih =>
    by_cases h : n < 10
    · rw [natToChars_lt10 h]
      intro c hc
      rw [List.mem_singleton] at hc
      subst hc
      exact digitChar_isDig n h
    · rw [natToChars_ge10 h]
      intro c hc
      rw [List.mem_append] at hc
      rcases hc with hc | hc
      · exact ih (n / 10) (Nat.div_lt_self (by omega) (by omega)) c hc
      · rw [List.mem_singleton] at hc
        subst hc
        exact digitChar_isDig (n % 10) (Nat.mod_lt _ (by omega))

theorem natToChars_head_pos {n : Nat} (h : 0 < n) :
    ∃ c t, natToChars n = c :: t ∧ isDig c = true ∧ c ≠ '0' := by
  induction n using Nat.strongRecOn with
  | _ n ih =>
    by_cases h10 : n < 10
    · refine ⟨Char.ofNat (48 + n), [], natToChars_lt10 h10, digitChar_isDig n h10, ?_⟩
      exact char_ne_of_toNat_ne (by rw [digitChar_toNat n h10]; simp; omega)
    · obtain ⟨c, t, hct, hdig, hc0⟩ :=
        ih (n / 10) (Nat.div_lt_self (by omega) (by omega)) (by omega)
      exact ⟨c, t ++ [Char.ofNat (48 + n % 10)],
        by rw [natToChars_ge10 h10, hct, List.cons_append], hdig, hc0⟩

theorem digitsToNat_cons (acc : Nat) (c : Char) (cs : List Char) :
    digitsToNat acc (c :: cs) = digitsToNat (acc * 10 + (c.toNat - 48)) cs := rfl

theorem digitsToNat_append (l1 : List Char) : ∀ acc l2,
    digitsToNat acc (l1 ++ l2) = digitsToNat (digitsToNat acc l1) l2 := by
  induction l1 with
  | nil => intro acc l2; rfl
  | cons c t ih =>
    intro acc l2
    rw [List.cons_append, digitsToNat_cons, digitsToNat_cons, ih]

theorem digitsToNat_natToChars (n : Nat) : ∀ acc,
    digitsToNat acc (natToChars n) = acc * 10 ^ (natToChars n).length + n := by
  induction n using Nat.strongRecOn with
  | _ n ih =>
    intro acc
    by_cases h : n < 10
    · rw [natToChars_lt10 h, digitsToNat_cons, digitChar_toNat n h]
      show acc * 10 + (48 + n - 48) = acc * 10 ^ (1 : Nat) + n
      rw [pow_one]
      omega
    · rw [natToChars_ge10 h, digitsToNat_append, List.length_append, List.length_singleton]
      have hdm : n / 10 * 10 + n % 10 = n := by omega
      have hd9 : n % 10 < 10 := Nat.mod_lt _ (by omega)
      rw [ih (n / 10) (Nat.div_lt_self (by omega) (by omega)) acc, digitsToNat_cons,
        digitChar_toNat _ hd9]
      show digitsToNat _ [] = _
      rw [pow_succ]
      have hnil : ∀ m : Nat, digitsToNat m [] = m := fun _ => rfl
      rw [hnil]
      calc (acc * 10 ^ (natToChars (n / 10)).length + n / 10) * 10 + (48 + n % 10 - 48)
          = acc * (10 ^ (natToChars (n / 10)).length * 10) + (n / 10 * 10 + n % 10) := by ring_nf; omega
        _ = acc * (10 ^ (natToChars (n / 10)).length * 10) + n := by rw [hdm]

theorem takeDigits_cons_false {c : Char} {t : List Char} (h : isDig c = false) :
    takeDigits (c :: t) = ([], c :: t) := by
  simp [takeDigits, h]

theorem intStop_head {c : Char} {t : List Char} (h : intStop (c :: t) = true) :
    isDig c = false ∧ c ≠ '.' ∧ c ≠ 'e' ∧ c ≠ 'E' := by
  simp only [intStop, Bool.not_eq_eq_eq_not, Bool.not_true, Bool.or_eq_false_iff,
    decide_eq_false_iff_not] at h
  exact ⟨h.1.1.1, h.1.1.2, h.1.2, h.2⟩

theorem intStop_takeDigits {l : List Char} (h : intStop l = true) :
    takeDigits l = ([], l) := by
  match l with
  | [] => rfl
  | c :: t => exact takeDigits_cons_false (intStop_head h).1

theorem floatStart_of_intStop {l : List Char} (h : intStop l = true) :
    floatStart l = false := by
  match l with
  | [] => rfl
  | c :: t =>
    obtain ⟨_, h1, h2, h3⟩ := intStop_head h
    simp [floatStart, h1, h2, h3]

theorem takeDigits_run (ds rest : List Char) (hrest : takeDigits rest = ([], rest))
    (hds : ∀ c ∈ ds, isDig c = true) :
    takeDigits (ds ++ rest) = (ds, rest) := by
  induction ds with
  | nil =>
    rw [List.nil_append]
    exact hrest
  | cons c t ih =>
    rw [List.cons_append]
    have hc : isDig c = true := hds c (List.mem_cons_self c t)
    have ht : takeDigits (t ++ rest) = (t, rest) :=
      ih fun x hx => hds x (List.mem_cons_of_mem c hx)
    simp only [takeDigits, hc, if_true, ht]

theorem parseIntPart_natToChars (n : Nat) (rest : List Char) (hstop : intStop rest = true) :
    parseIntPart (natToChars n ++ rest) = some (n, rest) := by
  by_cases h0 : n = 0
  · subst h0
    have : natToChars 0 = ['0'] := natToChars_lt10 (by omega)
    rw [this]
    simp [parseIntPart]
  · obtain ⟨c, t, hct, hdig, hc0⟩ := natToChars_head_pos (n := n) (by omega)
    have hval : digitsToNat (c.toNat - 48) t = n := by
      have h1 : digitsToNat 0 (natToChars n) = n := by
        rw [digitsToNat_natToChars]; simp
      rw [hct, digitsToNat_cons] at h1
      simpa using h1
    have htd : takeDigits (t ++ rest) = (t, rest) :=
      takeDigits_run t rest (intStop_takeDigits hstop)
        (fun x hx => natToChars_digits n x (by rw [hct]; simp [hx]))
    rw [hct, List.cons_append]
    simp [parseIntPart, hc0, hdig, htd, hval]

/-! ## String escaping round-trip -/

theorem char_toNat_lt (c : Char) : c.toNat < 1114112 := by
  rcases char_valid_nat c with h | ⟨h1, h2⟩ <;> omega

theorem escChar_length_pos (c : Char) : 1 ≤ (escChar c).length := by
  unfold escChar
  split_ifs <;> simp [hex4]

theorem escBody_length (cs : List Char) : cs.length ≤ (escBody cs).length := by
  induction cs with
  | nil => simp [escBody]
  | cons c t ih =>
    have := escChar_length_pos c
    simp only [escBody, List.length_append, List.length_cons]
    omega

theorem parseStrChars_u (f : Nat) (x1 x2 x3 x4 : Char) (a b d e : Nat) (cs3 : List Char)
    (hx1 : hexVal x1 = some a) (hx2 : hexVal x2 = some b)
    (hx3 : hexVal x3 = some d) (hx4 : hexVal x4 = some e)
    (hs1 : ¬(55296 ≤ ((a * 16 + b) * 16 + d) * 16 + e ∧ ((a * 16 + b) * 16 + d) * 16 + e ≤ 56319))
    (hs2 : ¬(56320 ≤ ((a * 16 + b) * 16 + d) * 16 + e ∧ ((a * 16 + b) * 16 + d) * 16 + e ≤ 57343)) :
    parseStrChars (f + 1) ('\\' :: 'u' :: x1 :: x2 :: x3 :: x4 :: cs3) =
      match parseStrChars f cs3 with
      | some p => some (Char.ofNat (((a * 16 + b) * 16 + d) * 16 + e) :: p.1, p.2)
      | none => none := by
  simp only [parseStrChars, hx1, hx2, hx3, hx4]
  rw [if_neg (by decide : ¬('\\' = '"'))]
  simp only [if_true]
  rw [if_neg hs1, if_neg hs2]

theorem parseStrChars_pair (f : Nat) (x1 x2 x3 x4 y1 y2 y3 y4 : Char)
    (a b d e a2 b2 d2 e2 : Nat) (cs4 : List Char)
    (hx1 : hexVal x1 = some a) (hx2 : hexVal x2 = some b)
    (hx3 : hexVal x3 = some d) (hx4 : hexVal x4 = some e)
    (hy1 : hexVal y1 = some a2) (hy2 : hexVal y2 = some b2)
    (hy3 : hexVal y3 = some d2) (hy4 : hexVal y4 = some e2)
    (hn : 55296 ≤ ((a * 16 + b) * 16 + d) * 16 + e ∧ ((a * 16 + b) * 16 + d) * 16 + e ≤ 56319)
    (hm : 56320 ≤ ((a2 * 16 + b2) * 16 + d2) * 16 + e2 ∧
      ((a2 * 16 + b2) * 16 + d2) * 16 + e2 ≤ 57343) :
    parseStrChars (f + 1)
        ('\\' :: 'u' :: x1 :: x2 :: x3 :: x4 :: '\\' :: 'u' :: y1 :: y2 :: y3 :: y4 :: cs4) =
      match parseStrChars f cs4 with
      | some p => some (Char.ofNat (65536 + (((a * 16 + b) * 16 + d) * 16 + e - 55296) * 1024 +
          (((a2 * 16 + b2) * 16 + d2) * 16 + e2 - 56320)) :: p.1, p.2)
      | none => none := by
  simp only [parseStrChars, hx1, hx2, hx3, hx4, hy1, hy2, hy3, hy4]
  rw [if_neg (by decide : ¬('\\' = '"'))]
  simp only [if_true]
  rw [if_pos hn, if_pos hm]

theorem parseStrChars_escChar (c : Char) (f : Nat) (tl : List Char) :
    parseStrChars (f + 1) (escChar c ++ tl) =
      match parseStrChars f tl with
      | some p => some (c :: p.1, p.2)
      | none => none := by
  by_cases h1 : c = '\\'
  · subst h1; simp [parseStrChars, escChar, escDecode]
  by_cases h2 : c = '"'
  · subst h2; simp [parseStrChars, escChar, escDecode]
  by_cases h3 : c = '\x08'
  · subst h3; simp [parseStrChars, escChar, escDecode]
  by_cases h4 : c = '\x0c'
  · subst h4; simp [parseStrChars, escChar, escDecode]
  by_cases h5 : c = '\n'
  · subst h5; simp [parseStrChars, escChar, escDecode]
  by_cases h6 : c = '\r'
  · subst h6; simp [parseStrChars, escChar, escDecode]
  by_cases h7 : c = '\t'
  · subst h7; simp [parseStrChars, escChar, escDecode]
  by_cases h8 : 32 ≤ c.toNat ∧ c.toNat ≤ 126
  · have hesc : escChar c = [c] := by
      unfold escChar
      rw [if_neg h1, if_neg h2, if_neg h3, if_neg h4, if_neg h5, if_neg h6,
        if_neg h7, if_pos h8]
    rw [hesc, List.cons_append, List.nil_append]
    simp only [parseStrChars]
    rw [if_neg h2, if_neg h1, if_neg (by omega)]
  have hval := char_valid_nat c
  by_cases h9 : c.toNat < 65536
  · have hesc : escChar c = '\\' :: 'u' :: hex4 c.toNat := by
      unfold escChar
      rw [if_neg h1, if_neg h2, if_neg h3, if_neg h4, if_neg h5, if_neg h6,
        if_neg h7, if_neg h8, if_pos h9]
    rw [hesc]
    simp only [hex4, List.cons_append, List.nil_append]
    rw [parseStrChars_u f _ _ _ _ _ _ _ _ tl
      (hexVal_hexChar _ (Nat.mod_lt _ (by omega))) (hexVal_hexChar _ (Nat.mod_lt _ (by omega)))
      (hexVal_hexChar _ (Nat.mod_lt _ (by omega))) (hexVal_hexChar _ (Nat.mod_lt _ (by omega)))
      (by omega) (by omega)]
    rw [show ((c.toNat / 4096 % 16 * 16 + c.toNat / 256 % 16) * 16 + c.toNat / 16 % 16) * 16 +
      c.toNat % 16 = c.toNat from by omega, Char.ofNat_toNat]
  · have hlt := char_toNat_lt c
    have hesc : escChar c =
        ('\\' :: 'u' :: hex4 (55296 + (c.toNat - 65536) / 1024)) ++
          ('\\' :: 'u' :: hex4 (56320 + (c.toNat - 65536) % 1024)) := by
      unfold escChar
      rw [if_neg h1, if_neg h2, if_neg h3, if_neg h4, if_neg h5, if_neg h6,
        if_neg h7, if_neg h8, if_neg h9]
    rw [hesc]
    simp only [hex4, List.cons_append, List.nil_append, List.append_assoc]
    set Y := 55296 + (c.toNat - 65536) / 1024 with hY
    set Z := 56320 + (c.toNat - 65536) % 1024 with hZ
    rw [parseStrChars_pair f _ _ _ _ _ _ _ _ _ _ _ _ _ _ _ _ tl
      (hexVal_hexChar _ (Nat.mod_lt _ (by omega))) (hexVal_hexChar _ (Nat.mod_lt _ (by omega)))
      (hexVal_hexChar _ (Nat.mod_lt _ (by omega))) (hexVal_hexChar _ (Nat.mod_lt _ (by omega)))
      (hexVal_hexChar _ (Nat.mod_lt _ (by omega))) (hexVal_hexChar _ (Nat.mod_lt _ (by omega)))
      (hexVal_hexChar _ (Nat.mod_lt _ (by omega))) (hexVal_hexChar _ (Nat.mod_lt _ (by omega)))
      (by omega) (by omega)]
    rw [show 65536 + (((Y / 4096 % 16 * 16 + Y / 256 % 16) * 16 + Y / 16 % 16) * 16 +
        Y % 16 - 55296) * 1024 +
        (((Z / 4096 % 16 * 16 + Z / 256 % 16) * 16 + Z / 16 % 16) * 16 + Z % 16 - 56320)
      = c.toNat from by omega, Char.ofNat_toNat]

theorem parseStrChars_escBody (cs : List Char) : ∀ fuel rest, cs.length < fuel →
    parseStrChars fuel (escBody cs ++ ('"' :: rest)) = some (cs, rest) := by
  induction cs with
  | nil =>
    intro fuel rest hf
    match fuel with
    | f + 1 => simp [escBody, parseStrChars]
  | cons c t ih =>
    intro fuel rest hf
    match fuel with
    | f + 1 =>
      rw [show escBody (c :: t) ++ ('"' :: rest) = escChar c ++ (escBody t ++ ('"' :: rest))
          from by simp [escBody],
        parseStrChars_escChar, ih f rest (by simpa using hf)]

/-! ## Heads of serialized values, whitespace, integer dispatch -/

theorem skipWs_cons_false {c : Char} {t : List Char} (h : isWsChar c = false) :
    skipWs (c :: t) = c :: t := by
  simp [skipWs, h]

theorem printVal_head (v : JVal) :
    ∃ c t, printVal v = c :: t ∧ isWsChar c = false ∧ c ≠ ']' ∧ c ≠ '\x7d' := by
  cases v with
  | null => exact ⟨'n', _, rfl, by decide, by decide, by decide⟩
  | bool b =>
    cases b with
    | false => exact ⟨'f', _, rfl, by decide, by decide, by decide⟩
    | true => exact ⟨'t', _, rfl, by decide, by decide, by decide⟩
  | int i =>
    by_cases hi : i < 0
    · refine ⟨'-', natToChars i.natAbs, ?_, by decide, by decide, by decide⟩
      show intToChars i = _
      simp [intToChars, hi]
    · have hv : printVal (.int i) = natToChars i.natAbs := by
        show intToChars i = _
        simp [intToChars, hi]
      match hct : natToChars i.natAbs with
      | [] => exact absurd hct (natToChars_ne_nil _)
      | c :: t =>
        have hdig : isDig c = true := natToChars_digits _ c (by rw [hct]; simp)
        obtain ⟨_, _, _, _, _, _, _, _, _, _, _, hbr, hbc, _, _, _, _, _⟩ := isDig_facts hdig
        exact ⟨c, t, by rw [hv, hct], isDig_not_ws hdig, hbr, hbc⟩
  | str s => exact ⟨'"', _, rfl, by decide, by decide, by decide⟩
  | arr xs => exact ⟨'[', _, rfl, by decide, by decide, by decide⟩
  | obj kvs => exact ⟨'\x7b', _, rfl, by decide, by decide, by decide⟩

theorem skipWs_printVal (v : JVal) (x : List Char) :
    skipWs (printVal v ++ x) = printVal v ++ x := by
  obtain ⟨c, t, hv, hws, _, _⟩ := printVal_head v
  rw [hv, List.cons_append, skipWs_cons_false hws]

theorem printVal_length_pos (v : JVal) : 1 ≤ (printVal v).length := by
  obtain ⟨c, t, hv, _, _, _⟩ := printVal_head v
  rw [hv]
  simp

theorem parseVal_neg (f : Nat) (tl : List Char) :
    parseVal (f + 1) ('-' :: tl) =
      match parseIntPart tl with
      | some (n, r) => if floatStart r then none else some (.int (-(n : Int)), r)
      | none => none := by
  simp [parseVal]

theorem parseVal_dig (f : Nat) (c : Char) (tl : List Char) (hc : isDig c = true) :
    parseVal (f + 1) (c :: tl) =
      match parseIntPart (c :: tl) with
      | some (n, r) => if floatStart r then none else some (.int (n : Int), r)
      | none => none := by
  obtain ⟨_, _, _, _, hbrace, hbrk, hquot, ht, hf2, hn, hminus, _, _, _, _, _, _, _⟩ :=
    isDig_facts hc
  simp only [parseVal]
  rw [if_neg hbrace, if_neg hbrk, if_neg hquot, if_neg ht, if_neg hf2, if_neg hn,
    if_neg hminus, if_pos hc]

theorem parseVal_intToChars (i : Int) (f : Nat) (rest : List Char)
    (hstop : intStop rest = true) :
    parseVal (f + 1) (intToChars i ++ rest) = some (.int i, rest) := by
  by_cases hi : i < 0
  · have habs : intToChars i = '-' :: natToChars i.natAbs := by
      simp [intToChars, hi]
    rw [habs, List.cons_append, parseVal_neg, parseIntPart_natToChars _ _ hstop]
    simp [floatStart_of_intStop hstop]
    rw [Int.abs_eq_natAbs]
    omega
  · have habs : intToChars i = natToChars i.natAbs := by
      simp [intToChars, hi]
    rw [habs]
    match hct : natToChars i.natAbs with
    | [] => exact absurd hct (natToChars_ne_nil _)
    | c :: t =>
      have hdig : isDig c = true := natToChars_digits _ c (by rw [hct]; simp)
      rw [List.cons_append, parseVal_dig f c _ hdig, ← List.cons_append, ← hct,
        parseIntPart_natToChars _ _ hstop]
      simp [floatStart_of_intStop hstop]
      omega

/-! ## Dict building from scanned pairs -/

theorem objInsert_fresh (acc : List (String × JVal)) (k : String) (v : JVal)
    (h : ∀ p ∈ acc, p.1 ≠ k) : objInsert acc k v = acc ++ [(k, v)] := by
  induction acc with
  | nil => rfl
  | cons q t ih =>
    obtain ⟨k0, v0⟩ := q
    have hk0 : k0 ≠ k := h (k0, v0) (by simp)
    simp [objInsert, hk0, ih (fun p hp => h p (by simp [hp]))]

theorem dictFold_app (prs : List (String × JVal)) : ∀ acc,
    keysDistinct prs → (∀ p ∈ prs, ∀ q ∈ acc, q.1 ≠ p.1) →
    List.foldl (fun a q => objInsert a q.1 q.2) acc prs = acc ++ prs := by
  induction prs with
  | nil =>
    intro acc _ _
    simp
  | cons p t ih =>
    intro acc hd hfresh
    obtain ⟨k, v⟩ := p
    rw [List.foldl_cons]
    have h1 : objInsert acc k v = acc ++ [(k, v)] :=
      objInsert_fresh acc k v (fun q hq => hfresh (k, v) (by simp) q hq)
    have h2 : ∀ p ∈ t, ∀ q ∈ acc ++ [(k, v)], q.1 ≠ p.1 := by
      intro p hp q hq
      rcases List.mem_append.mp hq with hq | hq
      · exact hfresh p (by simp [hp]) q hq
      · rw [List.mem_singleton] at hq
        subst hq
        exact (hd.1 p hp).symm
    show List.foldl (fun a q => objInsert a q.1 q.2) (objInsert acc k v) t = acc ++ (k, v) :: t
    rw [h1, ih (acc ++ [(k, v)]) hd.2 h2]
    simp

theorem dictOfPairs_distinct (prs : List (String × JVal)) (h : keysDistinct prs) :
    dictOfPairs prs = prs := by
  have := dictFold_app prs [] h (by simp)
  simpa [dictOfPairs] using this

theorem jwfObj_cons {k : String} {v : JVal} {kvs : List (String × JVal)}
    (h : jwfObj ((k, v) :: kvs) = true) :
    (∀ p ∈ kvs, p.1 ≠ k) ∧ jwf v = true ∧ jwfObj kvs = true := by
  have h2 : (kvs.all (fun p => !(p.1 = k : Bool)) && jwf v && jwfObj kvs) = true := h
  simp only [Bool.and_eq_true, List.all_eq_true, Bool.not_eq_eq_eq_not, Bool.not_true,
    decide_eq_false_iff_not] at h2
  exact ⟨h2.1.1, h2.1.2, h2.2⟩

theorem jwfArr_cons {x : JVal} {xs : List JVal} (h : jwfArr (x :: xs) = true) :
    jwf x = true ∧ jwfArr xs = true := by
  have h2 : (jwf x && jwfArr xs) = true := h
  simpa [Bool.and_eq_true] using h2

theorem jwfObj_keysDistinct (kvs : List (String × JVal)) (h : jwfObj kvs = true) :
    keysDistinct kvs := by
  induction kvs with
  | nil => trivial
  | cons p t ih =>
    obtain ⟨k, v⟩ := p
    obtain ⟨hfresh, _, htail⟩ := jwfObj_cons h
    exact ⟨hfresh, ih htail⟩

/-! ## Parser dispatch steps and printer shapes -/

theorem parseVal_quote (f : Nat) (tl : List Char) :
    parseVal (f + 1) ('"' :: tl) =
      match parseStrChars f tl with
      | some (chs, r) => some (.str ⟨chs⟩, r)
      | none => none := by
  simp [parseVal]

theorem parseVal_obj_step (f : Nat) (c2 : Char) (r : List Char) (hne : ¬c2 = '\x7d')
    (hws : isWsChar c2 = false) :
    parseVal (f + 1) ('\x7b' :: c2 :: r) =
      match parseMembers f (c2 :: r) with
      | some (prs, r2) => some (.obj (dictOfPairs prs), r2)
      | none => none := by
  simp only [parseVal]
  simp only [reduceIte]
  rw [skipWs_cons_false hws]
  show (if c2 = '\x7d' then some (JVal.obj [], r)
    else match parseMembers f (c2 :: r) with
      | some (prs, r2) => some (JVal.obj (dictOfPairs prs), r2)
      | none => none) = _
  rw [if_neg hne]

theorem parseVal_arr_step (f : Nat) (c2 : Char) (r : List Char) (hne : ¬c2 = ']')
    (hws : isWsChar c2 = false) :
    parseVal (f + 1) ('[' :: c2 :: r) =
      match parseItems f (c2 :: r) with
      | some (xs, r2) => some (.arr xs, r2)
      | none => none := by
  simp only [parseVal]
  rw [if_neg (by decide : ¬('[' = '\x7b'))]
  simp only [reduceIte]
  rw [skipWs_cons_false hws]
  show (if c2 = ']' then some (JVal.arr [], r)
    else match parseItems f (c2 :: r) with
      | some (xs, r2) => some (JVal.arr xs, r2)
      | none => none) = _
  rw [if_neg hne]

theorem skipWs_space (l : List Char) : skipWs (' ' :: l) = skipWs l := by
  show (if isWsChar ' ' then skipWs l else ' ' :: l) = skipWs l
  rw [if_pos (by decide : isWsChar ' ' = true)]

theorem skipWs_rbracket (l : List Char) : skipWs (']' :: l) = ']' :: l :=
  skipWs_cons_false (by decide)

theorem skipWs_rbrace (l : List Char) : skipWs ('\x7d' :: l) = '\x7d' :: l :=
  skipWs_cons_false (by decide)

theorem skipWs_comma (l : List Char) : skipWs (',' :: l) = ',' :: l :=
  skipWs_cons_false (by decide)

theorem skipWs_colon (l : List Char) : skipWs (':' :: l) = ':' :: l :=
  skipWs_cons_false (by decide)

theorem printArrItems_one (x : JVal) : printArrItems [x] = printVal x := rfl

theorem printArrItems_many (x y : JVal) (ys : List JVal) :
    printArrItems (x :: y :: ys) = printVal x ++ ',' :: ' ' :: printArrItems (y :: ys) := rfl

theorem printObjItems_one (k : String) (v : JVal) :
    printObjItems [(k, v)] = '"' :: (escBody k.data ++ '"' :: ':' :: ' ' :: printVal v) := rfl

theorem printObjItems_many (k : String) (v : JVal) (p : String × JVal)
    (kvs : List (String × JVal)) :
    printObjItems ((k, v) :: p :: kvs) =
      '"' :: (escBody k.data ++ '"' :: ':' :: ' ' :: printVal v) ++
        ',' :: ' ' :: printObjItems (p :: kvs) := rfl

theorem printArrItems_length_pos (y : JVal) (ys : List JVal) :
    1 ≤ (printArrItems (y :: ys)).length := by
  cases ys with
  | nil =>
    rw [printArrItems_one]
    exact printVal_length_pos y
  | cons z zs =>
    rw [printArrItems_many]
    have := printVal_length_pos y
    simp only [List.length_append, List.length_cons]
    omega

theorem printObjItems_length_pos (p : String × JVal) (kvs : List (String × JVal)) :
    1 ≤ (printObjItems (p :: kvs)).length := by
  obtain ⟨k, v⟩ := p
  cases kvs with
  | nil => rw [printObjItems_one]; simp
  | cons q t => rw [printObjItems_many]; simp

theorem skipWs_printArrItems (y : JVal) (ys : List JVal) (x : List Char) :
    skipWs (printArrItems (y :: ys) ++ x) = printArrItems (y :: ys) ++ x := by
  cases ys with
  | nil =>
    rw [printArrItems_one]
    exact skipWs_printVal y x
  | cons z zs =>
    rw [printArrItems_many, List.append_assoc]
    exact skipWs_printVal y _

theorem skipWs_printObjItems (p : String × JVal) (kvs : List (String × JVal)) (x : List Char) :
    skipWs (printObjItems (p :: kvs) ++ x) = printObjItems (p :: kvs) ++ x := by
  obtain ⟨k, v⟩ := p
  cases kvs with
  | nil =>
    rw [printObjItems_one, List.cons_append, skipWs_cons_false (by decide)]
  | cons q t =>
    rw [printObjItems_many, List.cons_append, List.cons_append,
      skipWs_cons_false (by decide)]

/-! ## The codec round-trip -/

theorem parse_print_master : ∀ fuel : Nat,
    (∀ v rest, jwf v = true → (printVal v).length < fuel → intStop rest = true →
      parseVal fuel (printVal v ++ rest) = some (v, rest)) ∧
    (∀ x xs rest, jwfArr (x :: xs) = true → (printArrItems (x :: xs)).length + 1 < fuel →
      parseItems fuel (printArrItems (x :: xs) ++ ']' :: rest) = some (x :: xs, rest)) ∧
    (∀ k v kvs rest, jwfObj ((k, v) :: kvs) = true →
      (printObjItems ((k, v) :: kvs)).length + 1 < fuel →
      parseMembers fuel (printObjItems ((k, v) :: kvs) ++ '\x7d' :: rest) =
        some ((k, v) :: kvs, rest)) := by
  intro fuel
  induction fuel using Nat.strongRecOn with
  | _ fuel ih =>
    match fuel with
    | 0 =>
      refine ⟨fun v rest _ hf _ => absurd hf (by omega),
        fun x xs rest _ hf => absurd hf (by omega),
        fun k v kvs rest _ hf => absurd hf (by omega)⟩
    | f + 1 =>
      have ihf := ih f (by omega)
      refine ⟨?_, ?_, ?_⟩
      · intro v rest hwf hf hstop
        cases v with
        | null =>
          show parseVal (f + 1) (['n', 'u', 'l', 'l'] ++ rest) = _
          simp [parseVal]
        | bool b =>
          cases b with
          | true =>
            show parseVal (f + 1) (['t', 'r', 'u', 'e'] ++ rest) = _
            simp [parseVal]
          | false =>
            show parseVal (f + 1) (['f', 'a', 'l', 's', 'e'] ++ rest) = _
            simp [parseVal]
        | int i => exact parseVal_intToChars i f rest hstop
        | str s =>
          have h1 := escBody_length s.data
          have h2 : (printVal (.str s)).length = (escBody s.data).length + 2 := by
            show (('"' :: (escBody s.data ++ ['"'])) : List Char).length = _
            simp
          have hlen : s.data.length < f := by omega
          have hshape : printVal (.str s) ++ rest = '"' :: (escBody s.data ++ ('"' :: rest)) := by
            show ('"' :: (escBody s.data ++ ['"'])) ++ rest = _
            simp
          rw [hshape, parseVal_quote, parseStrChars_escBody s.data f rest hlen]
        | arr xs =>
          cases xs with
          | nil =>
            show parseVal (f + 1) (['[', ']'] ++ rest) = _
            simp [parseVal, skipWs, isWsChar]
          | cons x xs2 =>
            have h2 : (printVal (.arr (x :: xs2))).length =
                (printArrItems (x :: xs2)).length + 2 := by
              show (('[' :: (printArrItems (x :: xs2) ++ [']'])) : List Char).length = _
              simp
            have hlen : (printArrItems (x :: xs2)).length + 1 < f := by omega
            have hdec : ∃ c2 r, printArrItems (x :: xs2) ++ (']' :: rest) = c2 :: r ∧
                ¬c2 = ']' ∧ isWsChar c2 = false := by
              obtain ⟨c, t, hx, hws, hbr, hbc⟩ := printVal_head x
              cases xs2 with
              | nil =>
                rw [printArrItems_one, hx]
                exact ⟨c, t ++ (']' :: rest), by simp, hbr, hws⟩
              | cons y ys =>
                rw [printArrItems_many, hx]
                exact ⟨c, t ++ (',' :: ' ' :: (printArrItems (y :: ys) ++ (']' :: rest))),
                  by simp, hbr, hws⟩
            obtain ⟨c2, r, hdecomp, hne, hws2⟩ := hdec
            have hshape : printVal (.arr (x :: xs2)) ++ rest =
                '[' :: (printArrItems (x :: xs2) ++ (']' :: rest)) := by
              show ('[' :: (printArrItems (x :: xs2) ++ [']'])) ++ rest = _
              simp
            rw [hshape, hdecomp, parseVal_arr_step f c2 r hne hws2, ← hdecomp,
              ihf.2.1 x xs2 rest hwf hlen]
        | obj kvs =>
          cases kvs with
          | nil =>
            show parseVal (f + 1) (['\x7b', '\x7d'] ++ rest) = _
            simp [parseVal, skipWs, isWsChar]
          | cons p kvs2 =>
            obtain ⟨k, v⟩ := p
            have h2 : (printVal (.obj ((k, v) :: kvs2))).length =
                (printObjItems ((k, v) :: kvs2)).length + 2 := by
              show (('\x7b' :: (printObjItems ((k, v) :: kvs2) ++ ['\x7d'])) : List Char).length = _
              simp
            have hlen : (printObjItems ((k, v) :: kvs2)).length + 1 < f := by omega
            have hhead : ∃ r, printObjItems ((k, v) :: kvs2) ++ ('\x7d' :: rest) = '"' :: r := by
              cases kvs2 with
              | nil =>
                rw [printObjItems_one]
                exact ⟨(escBody k.data ++ '"' :: ':' :: ' ' :: printVal v) ++ ('\x7d' :: rest),
                  List.cons_append _ _ _⟩
              | cons q t =>
                rw [printObjItems_many]
                exact ⟨((escBody k.data ++ '"' :: ':' :: ' ' :: printVal v) ++
                  ',' :: ' ' :: printObjItems (q :: t)) ++ ('\x7d' :: rest),
                  List.cons_append _ _ _⟩
            obtain ⟨r, hdecomp⟩ := hhead
            have hshape : printVal (.obj ((k, v) :: kvs2)) ++ rest =
                '\x7b' :: (printObjItems ((k, v) :: kvs2) ++ ('\x7d' :: rest)) := by
              show ('\x7b' :: (printObjItems ((k, v) :: kvs2) ++ ['\x7d'])) ++ rest = _
              simp
            rw [hshape, hdecomp, parseVal_obj_step f '"' r (by decide) (by decide), ← hdecomp,
              ihf.2.2 k v kvs2 rest hwf hlen]
            show some (JVal.obj (dictOfPairs ((k, v) :: kvs2)), rest) = _
            rw [dictOfPairs_distinct _ (jwfObj_keysDistinct _ hwf)]
      · intro x xs rest hwf hflen
        obtain ⟨hwfx, hwfxs⟩ := jwfArr_cons hwf
        cases xs with
        | nil =>
          have h1 : (printArrItems [x]).length = (printVal x).length := by
            rw [printArrItems_one]
          have hlenx : (printVal x).length < f := by omega
          simp only [parseItems]
          rw [printArrItems_one, ihf.1 x (']' :: rest) hwfx hlenx rfl]
          simp [skipWs_rbracket]
        | cons y ys =>
          rw [printArrItems_many] at hflen ⊢
          simp only [List.length_append, List.length_cons] at hflen
          have hposy := printArrItems_length_pos y ys
          have hlenx : (printVal x).length < f := by omega
          have hlen2 : (printArrItems (y :: ys)).length + 1 < f := by omega
          simp only [parseItems]
          simp only [List.append_assoc, List.cons_append]
          rw [ihf.1 x (',' :: ' ' :: (printArrItems (y :: ys) ++ ']' :: rest)) hwfx hlenx rfl]
          simp [skipWs_comma, skipWs_space, skipWs_printArrItems,
            ihf.2.1 y ys rest hwfxs hlen2]
      · intro k v kvs rest hwf hflen
        obtain ⟨hfresh, hwfv, hwfkvs⟩ := jwfObj_cons hwf
        cases kvs with
        | nil =>
          rw [printObjItems_one] at hflen ⊢
          simp only [List.length_append, List.length_cons] at hflen
          have hek := escBody_length k.data
          have hpv := printVal_length_pos v
          have hklen : k.data.length < f := by omega
          have hlenv : (printVal v).length < f := by omega
          simp only [parseMembers]
          simp only [List.cons_append, List.append_assoc]
          rw [parseStrChars_escBody k.data f _ hklen]
          simp [skipWs_colon, skipWs_space, skipWs_printVal,
            ihf.1 v ('\x7d' :: rest) hwfv hlenv rfl, skipWs_rbrace]
        | cons q kvs2 =>
          obtain ⟨k2, v2⟩ := q
          rw [printObjItems_many] at hflen ⊢
          simp only [List.length_append, List.length_cons] at hflen
          have hek := escBody_length k.data
          have hpv := printVal_length_pos v
          have hposq := printObjItems_length_pos (k2, v2) kvs2
          have hklen : k.data.length < f := by omega
          have hlenv : (printVal v).length < f := by omega
          have hlen2 : (printObjItems ((k2, v2) :: kvs2)).length + 1 < f := by omega
          simp only [parseMembers]
          simp only [List.cons_append, List.append_assoc]
          rw [parseStrChars_escBody k.data f _ hklen]
          simp [skipWs_colon, skipWs_space, skipWs_printVal,
            ihf.1 v (',' :: ' ' :: (printObjItems ((k2, v2) :: kvs2) ++ '\x7d' :: rest))
              hwfv hlenv rfl,
            skipWs_comma, skipWs_printObjItems, ihf.2.2 k2 v2 kvs2 rest hwfkvs hlen2]

/-! ## Client-layer facts -/

theorem send_message_client (c : BerlWebSocketClient) (m : JVal) (wo : WriteOutcome) :
    (send_message c m wo).1 = c := by
  cases wo <;> by_cases h : c.websocket.isNone <;> simp [send_message, wsSend, h]

theorem send_message_ret (c : BerlWebSocketClient) (m : JVal) (wo : WriteOutcome) :
    (send_message c m wo).2.2.2 = Except.ok () := by
  cases wo <;> by_cases h : c.websocket.isNone <;> simp [send_message, wsSend, h]

theorem handle_message_client (c : BerlWebSocketClient) (m : JVal) (wo : WriteOutcome) :
    (handle_message c m wo).1 = c := by
  cases m with
  | obj kvs =>
    simp only [handle_message]
    split_ifs <;> simp [send_message_client]
  | null => rfl
  | bool b => rfl
  | int n => rfl
  | str s => rfl
  | arr xs => rfl

theorem handle_message_ret (c : BerlWebSocketClient) (m : JVal) (wo : WriteOutcome) :
    (handle_message c m wo).2.2.2 = Except.ok () := by
  cases m with
  | obj kvs =>
    simp only [handle_message]
    split_ifs <;> simp [send_message_ret]
  | null => rfl
  | bool b => rfl
  | int n => rfl
  | str s => rfl
  | arr xs => rfl

theorem isSome_not_isNone {o : Option WSHandle} (h : o.isSome = true) : o.isNone = false := by
  cases o
  · simp at h
  · simp

/-! ## Claims -/

/-- C1 (counterexample to the claim as stated): for the ping message without a
`timestamp` field, the auto-reply is not `\x7b type: pong \x7d` with the
timestamp absent — the reply carries an explicit `timestamp: null` member, so
the frame differs from the timestamp-free frame the claim describes. -/
theorem ping_reply_null_timestamp_cex :
    (handle_message ⟨"localhost", 19765, some ⟨false⟩, true⟩
        (.obj [("type", .str "ping")]) .ok).2.1 =
      [dumps (.obj [("type", .str "pong"), ("timestamp", .null)])] ∧
    dumps (.obj [("type", .str "pong"), ("timestamp", .null)]) ≠
      dumps (.obj [("type", .str "pong")]) := by
  constructor
  · rfl
  · decide

/-- C1 (amended): for every structured message whose `type` field equals
"ping", a connected client with a successful write sends exactly one
auto-reply, the object with `type: "pong"` and a `timestamp` member that is
always present: the incoming `timestamp` field when there is one, JSON null
otherwise (`objGet` returns null for an absent key, and `message.get` puts
that `None` into the reply dict). -/
theorem ping_auto_reply (c : BerlWebSocketClient) (kvs : List (String × JVal))
    (hping : pyEqStr (objGet kvs "type") "ping" = true)
    (hconn : c.websocket.isSome = true) :
    (handle_message c (.obj kvs) .ok).2.1 =
      [dumps (.obj [("type", .str "pong"), ("timestamp", objGet kvs "timestamp")])] := by
  simp [handle_message, hping, send_message, wsSend, isSome_not_isNone hconn, pyToText]

/-- C1 witness: the spec scenario ping with timestamp 2025-01-01T00:00:00Z. -/
theorem ping_auto_reply_witness :
    (handle_message ⟨"localhost", 19765, some ⟨false⟩, true⟩
        (.obj [("type", .str "ping"), ("timestamp", .str "2025-01-01T00:00:00Z")])
        .ok).2.1 =
      [dumps (.obj [("type", .str "pong"), ("timestamp", .str "2025-01-01T00:00:00Z")])] :=
  ping_auto_reply _ _ rfl rfl

/-- C2 (counterexample to the claim as stated): no `SendError` ever reaches
the caller. Disconnected, `send_message` logs "Not connected to server" and
returns the normal `None` outcome; on a raising transport write it logs the
exception and again returns normally. -/
theorem send_message_no_error_cex :
    send_message ⟨"localhost", 19765, none, false⟩
        (.obj [("type", .str "greeting"), ("message", .str "Hello from Python client!")])
        .ok =
      (⟨"localhost", 19765, none, false⟩, [], [⟨.error, "Not connected to server"⟩],
        .ok ()) ∧
    send_message ⟨"localhost", 19765, some ⟨false⟩, true⟩
        (.obj [("type", .str "greeting")]) (.exn "write failed") =
      (⟨"localhost", 19765, some ⟨false⟩, true⟩, [],
        [⟨.error, "❌ Failed to send message: write failed"⟩], .ok ()) :=
  ⟨rfl, rfl⟩

/-- C2 (amended): `send_message` surfaces no error value. Not connected, it
logs "Not connected to server" and returns without writing; when the single
write attempt raises, the exception is caught, logged once, and the call
still returns normally (no retry: no frame reaches the wire); on success the
encoded frame is written once. Every path returns Python `None`. -/
theorem send_message_failure_logged (c : BerlWebSocketClient) (m : JVal) (e : String) :
    (c.websocket = none →
      send_message c m .ok = (c, [], [⟨.error, "Not connected to server"⟩], .ok ()) ∧
      send_message c m (.exn e) =
        (c, [], [⟨.error, "Not connected to server"⟩], .ok ())) ∧
    (c.websocket.isSome = true →
      send_message c m (.exn e) =
        (c, [], [⟨.error, "❌ Failed to send message: " ++ e⟩], .ok ()) ∧
      send_message c m .ok =
        (c, [pyToText m], [⟨.info, "📤 Sent: " ++ pyStr m⟩], .ok ())) := by
  constructor
  · intro h
    have hnone : c.websocket.isNone = true := by simp [h]
    constructor <;> simp [send_message, hnone]
  · intro h
    constructor <;> simp [send_message, wsSend, isSome_not_isNone h]

/-- C2 witness: each branch of the amended claim at a concrete client. -/
theorem send_message_failure_logged_witness :
    send_message ⟨"localhost", 19765, none, false⟩ (.str "m") .ok =
      (⟨"localhost", 19765, none, false⟩, [], [⟨.error, "Not connected to server"⟩],
        .ok ()) ∧
    send_message ⟨"localhost", 19765, none, false⟩ (.str "m") (.exn "boom") =
      (⟨"localhost", 19765, none, false⟩, [], [⟨.error, "Not connected to server"⟩],
        .ok ()) ∧
    send_message ⟨"localhost", 19765, some ⟨false⟩, true⟩ (.str "m") (.exn "boom") =
      (⟨"localhost", 19765, some ⟨false⟩, true⟩, [],
        [⟨.error, "❌ Failed to send message: boom"⟩], .ok ()) ∧
    send_message ⟨"localhost", 19765, some ⟨false⟩, true⟩ (.str "m") .ok =
      (⟨"localhost", 19765, some ⟨false⟩, true⟩, [pyToText (.str "m")],
        [⟨.info, "📤 Sent: " ++ pyStr (.str "m")⟩], .ok ()) :=
  ⟨((send_message_failure_logged ⟨"localhost", 19765, none, false⟩ (.str "m") "boom").1 rfl).1,
    ((send_message_failure_logged ⟨"localhost", 19765, none, false⟩ (.str "m") "boom").1 rfl).2,
    ((send_message_failure_logged ⟨"localhost", 19765, some ⟨false⟩, true⟩
      (.str "m") "boom").2 rfl).1,
    ((send_message_failure_logged ⟨"localhost", 19765, some ⟨false⟩, true⟩
      (.str "m") "boom").2 rfl).2⟩

/-- C3 (counterexample to the claim as stated): after the peer closes the
connection during the receive loop, the cleanup the claim requires did not
happen — the `running` flag is still set and the transport handle was never
closed; the loop only logged and returned. -/
theorem peer_close_state_cex :
    listen_for_messages ⟨"localhost", 19765, some ⟨false⟩, true⟩ [RecvEvent.closed] [] =
      (⟨"localhost", 19765, some ⟨false⟩, true⟩, [],
        [⟨.info, "Connection closed by server"⟩]) ∧
    (listen_for_messages ⟨"localhost", 19765, some ⟨false⟩, true⟩
        [RecvEvent.closed] []).1.running = true ∧
    (listen_for_messages ⟨"localhost", 19765, some ⟨false⟩, true⟩
        [RecvEvent.closed] []).1.websocket = some ⟨false⟩ :=
  ⟨rfl, rfl, rfl⟩

/-- C3 (amended): a peer-initiated closure terminates the receive loop and
produces the log record "Connection closed by server" — distinct from the
record `disconnect` produces — but performs none of the cleanup `disconnect`
does: the client state (including `running` and the open handle) is returned
unchanged, no close is issued, and cleanup happens only if the caller later
invokes `disconnect` itself. -/
theorem peer_close_terminates_without_cleanup (c : BerlWebSocketClient)
    (evs : List RecvEvent) (wos : List WriteOutcome)
    (hrun : c.running = true) (hconn : c.websocket.isSome = true) :
    listen_for_messages c (RecvEvent.closed :: evs) wos =
      (c, [], [⟨.info, "Connection closed by server"⟩]) ∧
    (listen_for_messages c (RecvEvent.closed :: evs) wos).2.2 ≠ (disconnect c).2 := by
  have h1 : listen_for_messages c (RecvEvent.closed :: evs) wos =
      (c, [], [⟨.info, "Connection closed by server"⟩]) := by
    simp [listen_for_messages, hrun, hconn]
  refine ⟨h1, ?_⟩
  rw [h1]
  obtain ⟨ws, hws⟩ := Option.isSome_iff_exists.mp hconn
  simp [disconnect, hws]

/-- C3 witness: the amended claim at a concrete connected client. -/
theorem peer_close_terminates_without_cleanup_witness :
    listen_for_messages ⟨"localhost", 19765, some ⟨false⟩, true⟩
        [RecvEvent.closed, RecvEvent.msg "late"] [] =
      (⟨"localhost", 19765, some ⟨false⟩, true⟩, [],
        [⟨.info, "Connection closed by server"⟩]) ∧
    (listen_for_messages ⟨"localhost", 19765, some ⟨false⟩, true⟩
        [RecvEvent.closed, RecvEvent.msg "late"] []).2.2 ≠
      (disconnect ⟨"localhost", 19765, some ⟨false⟩, true⟩).2 :=
  peer_close_terminates_without_cleanup ⟨"localhost", 19765, some ⟨false⟩, true⟩
    [RecvEvent.msg "late"] [] rfl rfl

/-- C4 (counterexample to the claim as stated): a structured message whose
`command` field is "echo" but whose `type` field is "ping" gets the pong
auto-reply, not the echo_response the claim promises for every message with
`command == "echo"` — the ping rule is an earlier `if` branch. -/
theorem echo_shadowed_by_ping_cex :
    (handle_message ⟨"localhost", 19765, some ⟨false⟩, true⟩
        (.obj [("type", .str "ping"), ("command", .str "echo"), ("data", .str "x")])
        .ok).2.1 =
      [dumps (.obj [("type", .str "pong"), ("timestamp", .null)])] ∧
    (handle_message ⟨"localhost", 19765, some ⟨false⟩, true⟩
        (.obj [("type", .str "ping"), ("command", .str "echo"), ("data", .str "x")])
        .ok).2.1 ≠
      [dumps (.obj [("type", .str "echo_response"), ("original", .str "x"),
        ("response", .str "Echo: x")])] := by
  constructor
  · rfl
  · decide

/-- C4 (amended): for every structured message whose `command` field equals
"echo" and whose `type` field does not equal "ping", a connected client with
a successful write sends exactly one auto-reply
`\x7b type: "echo_response", original: D, response: "Echo: " + str(D) \x7d`,
where D is the message's `data` field (`None`, hence JSON null, when
absent); for a string D, `str(D)` is D itself, matching the claim's
concatenation. -/
theorem echo_auto_reply (c : BerlWebSocketClient) (kvs : List (String × JVal))
    (hecho : pyEqStr (objGet kvs "command") "echo" = true)
    (hnp : pyEqStr (objGet kvs "type") "ping" = false)
    (hconn : c.websocket.isSome = true) :
    (handle_message c (.obj kvs) .ok).2.1 =
      [dumps (.obj [("type", .str "echo_response"), ("original", objGet kvs "data"),
        ("response", .str ("Echo: " ++ pyStr (objGet kvs "data")))])] := by
  simp [handle_message, hnp, hecho, send_message, wsSend, isSome_not_isNone hconn, pyToText]

/-- C4 witness: the echo test message from the repository's test list. -/
theorem echo_auto_reply_witness :
    (handle_message ⟨"localhost", 19765, some ⟨false⟩, true⟩
        (.obj [("command", .str "echo"), ("data", .str "Test echo message")]) .ok).2.1 =
      [dumps (.obj [("type", .str "echo_response"),
        ("original", .str "Test echo message"),
        ("response", .str "Echo: Test echo message")])] :=
  echo_auto_reply _ _ rfl rfl rfl

/-- C5: the codec round-trip — for every model value whose dicts are
duplicate-free (every value a Python object graph can denote), parsing the
serialized text recovers the value exactly: `loads (dumps v) = some v`. -/
theorem json_round_trip (v : JVal) (h : jwf v = true) : loads (dumps v) = some v := by
  have hm := (parse_print_master ((printVal v).length + 1)).1 v [] h (by omega) rfl
  rw [List.append_nil] at hm
  have hsk : skipWs (printVal v) = printVal v := by
    have h2 := skipWs_printVal v []
    simpa using h2
  show (match parseVal ((printVal v).length + 1) (skipWs (printVal v)) with
    | some (v, r) => if skipWs r = [] then some v else none
    | none => none) = some v
  rw [hsk, hm]
  simp [skipWs]

/-- C5 witness: the nested json_test message from the repository's test
list survives the round-trip. -/
theorem json_round_trip_witness :
    jwf (.obj [("type", .str "json_test"),
      ("data", .obj [("nested", .bool true), ("value", .int 42)])]) = true ∧
    loads (dumps (.obj [("type", .str "json_test"),
      ("data", .obj [("nested", .bool true), ("value", .int 42)])])) =
      some (.obj [("type", .str "json_test"),
        ("data", .obj [("nested", .bool true), ("value", .int 42)])]) :=
  ⟨rfl, json_round_trip _ rfl⟩

/-- C6: a received text that fails structured parsing neither terminates the
receive loop nor raises — the raw text itself is dispatched to
`handle_message`, and the loop goes on to the next read from the unchanged
client state, accumulating the dispatch's frames and logs in front of the
rest of the run. -/
theorem raw_text_fallback (c : BerlWebSocketClient) (s : String) (rest : List RecvEvent)
    (wos : List WriteOutcome) (hparse : loads s = none) (hrun : c.running = true)
    (hconn : c.websocket.isSome = true) :
    listen_for_messages c (RecvEvent.msg s :: rest) wos =
      ((listen_for_messages c rest wos.tail).1,
        (handle_message c (.str s) (wos.headD .ok)).2.1 ++
          (listen_for_messages c rest wos.tail).2.1,
        LogRec.mk .info ("📥 Received: " ++ s) ::
          ((handle_message c (.str s) (wos.headD .ok)).2.2.1 ++
            (listen_for_messages c rest wos.tail).2.2)) := by
  have hc : (c.running && c.websocket.isSome) = true := by rw [hrun, hconn]; rfl
  simp only [listen_for_messages, hc, if_true, hparse, handle_message_ret,
    handle_message_client]

/-- C6 witness: the spec scenario, the unparseable text "not json". -/
theorem raw_text_fallback_witness :
    loads "not json" = none ∧
    listen_for_messages ⟨"localhost", 19765, some ⟨false⟩, true⟩
        [RecvEvent.msg "not json"] [] =
      ((listen_for_messages ⟨"localhost", 19765, some ⟨false⟩, true⟩ [] []).1,
        (handle_message ⟨"localhost", 19765, some ⟨false⟩, true⟩
            (.str "not json") .ok).2.1 ++
          (listen_for_messages ⟨"localhost", 19765, some ⟨false⟩, true⟩ [] []).2.1,
        LogRec.mk .info ("📥 Received: " ++ "not json") ::
          ((handle_message ⟨"localhost", 19765, some ⟨false⟩, true⟩
              (.str "not json") .ok).2.2.1 ++
            (listen_for_messages ⟨"localhost", 19765, some ⟨false⟩, true⟩ [] []).2.2)) :=
  ⟨rfl, raw_text_fallback ⟨"localhost", 19765, some ⟨false⟩, true⟩ "not json" [] []
    rfl rfl rfl⟩

/-- C7: `disconnect` is idempotent on the client state — for every client,
the state after two consecutive `disconnect` calls equals the state after
one (the second call re-closes the already-closed handle and re-clears the
already-cleared flag, changing nothing). -/
theorem disconnect_idempotent (c : BerlWebSocketClient) :
    (disconnect (disconnect c).1).1 = (disconnect c).1 := by
  cases hc : c.websocket <;> simp [disconnect, hc]

/-- C8: the dispatcher's rules are applied first-match-wins — a structured
message whose `type` field is "ping" and whose `command` field is
simultaneously "echo" gets exactly the pong auto-reply, the reaction of the
earlier rule, and nothing else is sent. -/
theorem dispatch_first_match_wins (c : BerlWebSocketClient) (kvs : List (String × JVal))
    (hping : pyEqStr (objGet kvs "type") "ping" = true)
    (_hecho : pyEqStr (objGet kvs "command") "echo" = true)
    (hconn : c.websocket.isSome = true) :
    (handle_message c (.obj kvs) .ok).2.1 =
      [dumps (.obj [("type", .str "pong"), ("timestamp", objGet kvs "timestamp")])] ∧
    dumps (.obj [("type", .str "pong"), ("timestamp", objGet kvs "timestamp")]) ≠
      dumps (.obj [("type", .str "echo_response"), ("original", objGet kvs "data"),
        ("response", .str ("Echo: " ++ pyStr (objGet kvs "data")))]) := by
  constructor
  · simp [handle_message, hping, send_message, wsSend, isSome_not_isNone hconn, pyToText]
  · intro heq
    have hdata := congrArg String.data heq
    have h1 : (dumps (.obj [("type", .str "pong"),
        ("timestamp", objGet kvs "timestamp")])).data =
        '\x7b' :: '"' :: 't' :: 'y' :: 'p' :: 'e' :: '"' :: ':' :: ' ' :: '"' :: 'p' ::
          'o' :: 'n' :: 'g' :: '"' :: ',' :: ' ' ::
          (printObjItems [("timestamp", objGet kvs "timestamp")] ++ ['\x7d']) := rfl
    have h2 : (dumps (.obj [("type", .str "echo_response"),
        ("original", objGet kvs "data"),
        ("response", .str ("Echo: " ++ pyStr (objGet kvs "data")))])).data =
        '\x7b' :: '"' :: 't' :: 'y' :: 'p' :: 'e' :: '"' :: ':' :: ' ' :: '"' :: 'e' ::
          'c' :: 'h' :: 'o' :: '_' :: 'r' :: 'e' :: 's' :: 'p' :: 'o' :: 'n' :: 's' ::
          'e' :: '"' :: ',' :: ' ' ::
          (printObjItems [("original", objGet kvs "data"),
            ("response", .str ("Echo: " ++ pyStr (objGet kvs "data")))] ++ ['\x7d']) := rfl
    rw [h1, h2] at hdata
    simp at hdata

/-- C8 witness: a message carrying both discriminators. -/
theorem dispatch_first_match_wins_witness :
    (handle_message ⟨"localhost", 19765, some ⟨false⟩, true⟩
        (.obj [("type", .str "ping"), ("command", .str "echo"), ("data", .str "d")])
        .ok).2.1 =
      [dumps (.obj [("type", .str "pong"), ("timestamp", .null)])] ∧
    dumps (.obj [("type", .str "pong"), ("timestamp", .null)]) ≠
      dumps (.obj [("type", .str "echo_response"), ("original", .str "d"),
        ("response", .str ("Echo: " ++ pyStr (.str "d")))]) :=
  dispatch_first_match_wins ⟨"localhost", 19765, some ⟨false⟩, true⟩
    [("type", .str "ping"), ("command", .str "echo"), ("data", .str "d")] rfl rfl rfl

/-- C9 (implicit frame condition): `handle_message` never mutates the
session state — for every message, structured or raw, and every write
outcome, the client record (its `host`, `port`, `websocket` and `running`
fields) returned is the one passed in; its only effect is the possible
auto-reply and logging. -/
theorem handle_message_preserves_state (c : BerlWebSocketClient) (m : JVal)
    (wo : WriteOutcome) : (handle_message c m wo).1 = c :=
  handle_message_client c m wo

/-- C10 (implicit): `send_message` never propagates an exception and never
returns an error value — for every message and every transport outcome (not
connected, write failure, success) its control outcome is the normal `None`
return, so the caller cannot distinguish success from failure from the call
itself; failures are only logged. -/
theorem send_message_returns_none (c : BerlWebSocketClient) (m : JVal)
    (wo : WriteOutcome) : (send_message c m wo).2.2.2 = Except.ok () :=
  send_message_ret c m wo
